import Mathlib

/-!
# VMX progress tracker and queue poller: a verification development

This file gives a shallow embedding of the core of the VMX video-mixer
frontend: the sidecar-file progress parser, the target-descriptor parser,
the directory scanner with its name-based sidecar association, the
displayed-percentage derivation, the directory-capability persistence flow,
and the remote queue poller's cancellation flow.  Every definition is
translated from the TypeScript source (`ProgressTracker.tsx`,
`QueueView.tsx`); definitions whose name starts with `spec_` instead follow
the specification's words and are compared against the source-derived ones.
-/

namespace VMX

/-! ## Character and string utilities

The source uses JavaScript string operations (`split`, `trim`,
`toLowerCase`, `endsWith`, suffix-anchored `replace`).  They are defined
here by structural recursion on `String.data`, so every definition
evaluates by kernel reduction.
-/

/-- JS `String.prototype.split` with a one-character separator: split a
character list at every occurrence of the separator, keeping empty
fragments. -/
def splitCharList (sep : Char) : List Char → List (List Char)
  | [] => [[]]
  | c :: rest =>
    match splitCharList sep rest with
    | [] => [[]]
    | g :: gs => if c = sep then [] :: g :: gs else (c :: g) :: gs

/-- `text.split(sep)` for a single-character separator. -/
def jsSplit (sep : Char) (s : String) : List String :=
  (splitCharList sep s.data).map (fun cs => ⟨cs⟩)

/-- Whitespace predicate used by `trim`. -/
def isWS (c : Char) : Bool := c.isWhitespace

/-- Drop leading and trailing whitespace from a character list. -/
def trimCharList (cs : List Char) : List Char :=
  ((cs.dropWhile isWS).reverse.dropWhile isWS).reverse

/-- JS `String.prototype.trim`. -/
def jsTrim (s : String) : String := ⟨trimCharList s.data⟩

/-- Boolean list-prefix test, structural recursion. -/
def listPref : List Char → List Char → Bool
  | [], _ => true
  | _ :: _, [] => false
  | a :: as, b :: bs => a = b && listPref as bs

/-- JS `String.prototype.endsWith` (also the semantics of a `$`-anchored
literal regex test). -/
def endsWithS (s t : String) : Bool := listPref t.data.reverse s.data.reverse

/-- JS `s.replace(/suf$/, '')` for a literal suffix `suf`: chop the suffix
when it is present, otherwise return the string unchanged. -/
def chopEnd (s suf : String) : String :=
  if endsWithS s suf then ⟨(s.data.reverse.drop suf.data.length).reverse⟩ else s

/-- ASCII lower-casing of one character (the model of JS `toLowerCase` on
the ASCII file names the component manipulates). -/
def lowChar (c : Char) : Char :=
  if 'A' ≤ c ∧ c ≤ 'Z' then Char.ofNat (c.toNat + 32) else c

/-- JS `String.prototype.toLowerCase`, ASCII fragment. -/
def lowStr (s : String) : String := ⟨s.data.map lowChar⟩

/-! ## JavaScript number parsing

`parseInt` / `parseFloat` as used by the source on already-trimmed decimal
values.  `parseInt`'s hexadecimal `0x` form never occurs in the sidecar
formats and is not modelled; `parseFloat`'s `Infinity` literal likewise.
A failed parse (JS `NaN`) is `none`.
-/

/-- Decimal digit test. -/
def isDigitC (c : Char) : Bool := decide ('0' ≤ c) && decide (c ≤ '9')

/-- Value of a digit run. -/
def digitsVal (ds : List Char) : Nat :=
  ds.foldl (fun n c => 10 * n + (c.toNat - '0'.toNat)) 0

/-- The longest leading digit run, `none` when there is none. -/
def leadInt (l : List Char) : Option Nat :=
  match l.takeWhile isDigitC with
  | [] => none
  | ds => some (digitsVal ds)

/-- JS `parseInt(v)` on a decimal string: optional sign followed by a
longest run of digits; `none` is `NaN`. -/
def parseIntJS (s : String) : Option Int :=
  match trimCharList s.data with
  | '-' :: rest => (leadInt rest).map (fun n => -(n : Int))
  | '+' :: rest => (leadInt rest).map (fun n => (n : Int))
  | cs => (leadInt cs).map (fun n => (n : Int))

/-- JS `parseInt(v) || 0`. -/
def parseIntD (s : String) : Int := (parseIntJS s).getD 0

/-- JS `parseInt(v) || undefined` (both `NaN` and `0` are falsy). -/
def parseIntU (s : String) : Option Int :=
  match parseIntJS s with
  | some n => if n = 0 then none else some n
  | none => none

/-- Exponent part of a JS float literal; an exponent without digits is
ignored by `parseFloat` (parsing stops), leaving factor `10 ^ 0`. -/
def expVal (r : List Char) : Int :=
  match r with
  | '-' :: rest => ((leadInt rest).map (fun n => -(n : Int))).getD 0
  | '+' :: rest => ((leadInt rest).map (fun n => (n : Int))).getD 0
  | cs => ((leadInt cs).map (fun n => (n : Int))).getD 0

/-- JS `parseFloat(v)` on a decimal literal with optional fraction and
exponent; `none` (`NaN`) when no digit occurs in the mantissa. -/
def parseFloatJS (s : String) : Option ℚ :=
  let cs := trimCharList s.data
  let sgncs : ℚ × List Char :=
    match cs with
    | '-' :: r => (-1, r)
    | '+' :: r => (1, r)
    | _ => (1, cs)
  let ip := sgncs.2.takeWhile isDigitC
  let cs2 := sgncs.2.drop ip.length
  let fpcs : List Char × List Char :=
    match cs2 with
    | '.' :: r => (r.takeWhile isDigitC, r.drop (r.takeWhile isDigitC).length)
    | _ => ([], cs2)
  if ip.isEmpty && fpcs.1.isEmpty then none
  else
    let mant : ℚ := (digitsVal ip : ℚ) + (digitsVal fpcs.1 : ℚ) / ((10 : ℚ) ^ fpcs.1.length)
    let expo : Int :=
      match fpcs.2 with
      | 'e' :: r => expVal r
      | 'E' :: r => expVal r
      | _ => 0
    some (sgncs.1 * mant * (10 : ℚ) ^ expo)

/-- JS `parseFloat(v) || 0`. -/
def parseFloatD (s : String) : ℚ := (parseFloatJS s).getD 0

/-- JS `parseFloat(v) || undefined` (both `NaN` and `0` are falsy). -/
def parseFloatU (s : String) : Option ℚ :=
  match parseFloatJS s with
  | some q => if q = 0 then none else some q
  | none => none

/-! ## The progress-log parser (`parseProgressFile`, ProgressTracker.tsx) -/

/-- `ProgressData` (ProgressTracker.tsx): one parsed snapshot block of an
ffmpeg-style progress log. -/
structure ProgressData where
  frame : Int
  fps : ℚ
  bitrate : String
  outTime : String
  outTimeMs : Int
  speed : String
  progress : String
  totalSize : Int
  streamQuality : Option ℚ
deriving DecidableEq

/-- The fresh object built when a `frame=` line is seen. -/
def initProgress (v : String) : ProgressData :=
  { frame := parseIntD v, fps := 0, bitrate := "", outTime := "", outTimeMs := 0,
    speed := "", progress := "continue", totalSize := 0, streamQuality := none }

/-- The `switch (key)` updating the in-progress block; unrecognised keys
leave it unchanged. -/
def updateProgress (p : ProgressData) (key v : String) : ProgressData :=
  if key = "fps" then { p with fps := parseFloatD v }
  else if key = "bitrate" then { p with bitrate := jsTrim v }
  else if key = "out_time" then { p with outTime := v }
  else if key = "out_time_ms" then { p with outTimeMs := parseIntD v }
  else if key = "speed" then { p with speed := jsTrim v }
  else if key = "progress" then { p with progress := v }
  else if key = "total_size" then { p with totalSize := parseIntD v }
  else if key = "stream_0_0_q" then { p with streamQuality := parseFloatU v }
  else p

/-- The guard applied to each line by both parsers: skip lines without `=`
and lines that do not split into exactly two fragments; return the trimmed
key and value. -/
def lineKV (line : String) : Option (String × String) :=
  if line.data.contains '=' then
    match jsSplit '=' line with
    | [k, v] => some (jsTrim k, jsTrim v)
    | _ => none
  else none

/-- The key of a line, when the line passes the guard. -/
def lineKey (line : String) : Option String := (lineKV line).map (fun p => p.1)

/-- `text.split('\n').filter(line => line.trim())`: the non-blank lines. -/
def linesOf (text : String) : List String :=
  (jsSplit '\n' text).filter (fun l => jsTrim l != "")

/-- One iteration of the loop in `parseProgressFile`; the state is the pair
`(currentProgress, lastProgress)`.  A `frame` key finalises the in-progress
block into `lastProgress` and starts a fresh one; any other recognised key
updates the in-progress block when one exists and is otherwise dropped. -/
def stepProgress (st : Option ProgressData × Option ProgressData) (line : String) :
    Option ProgressData × Option ProgressData :=
  match lineKV line with
  | none => st
  | some kv =>
    if kv.1 = "frame" then
      (some (initProgress kv.2), match st.1 with | some c => some c | none => st.2)
    else
      match st.1 with
      | some c => (some (updateProgress c kv.1 kv.2), st.2)
      | none => st

/-- The loop of `parseProgressFile` over a list of (already filtered)
lines, returning `currentProgress || lastProgress`. -/
def parseProgressLines (lines : List String) : Option ProgressData :=
  let st := lines.foldl stepProgress (none, none)
  match st.1 with
  | some c => some c
  | none => st.2

/-- `parseProgressFile` (ProgressTracker.tsx): parse a progress log into
the snapshot the component surfaces. -/
def parseProgressFile (text : String) : Option ProgressData :=
  parseProgressLines (linesOf text)

/-! ## The target-descriptor parser (`parseProgressTargetFile`) -/

/-- `Partial<ProgressTarget>`: every field starts absent (`undefined`). -/
structure PartTarget where
  queueId : Option String := none
  type : Option String := none
  outputFile : Option String := none
  totalDuration : Option ℚ := none
  totalFrames : Option Int := none
  width : Option Int := none
  height : Option Int := none
  fps : Option Int := none
  encoder : Option String := none
  preset : Option String := none
  fadeEffect : Option String := none
  fadeDuration : Option ℚ := none
  fadeOffset : Option ℚ := none
  createdAt : Option String := none
deriving DecidableEq

/-- The `switch (key)` of `parseProgressTargetFile`; a `fade_effect` value
of `none` is normalised to absent, and the `|| undefined` fields become
absent again when the parse fails or yields `0`. -/
def updateTarget (t : PartTarget) (key v : String) : PartTarget :=
  if key = "queue_id" then { t with queueId := some v }
  else if key = "type" then { t with type := some v }
  else if key = "output_file" then { t with outputFile := some v }
  else if key = "total_duration" then { t with totalDuration := some (parseFloatD v) }
  else if key = "total_frames" then { t with totalFrames := some (parseIntD v) }
  else if key = "width" then { t with width := parseIntU v }
  else if key = "height" then { t with height := parseIntU v }
  else if key = "fps" then { t with fps := parseIntU v }
  else if key = "encoder" then { t with encoder := some v }
  else if key = "preset" then { t with preset := some v }
  else if key = "fade_effect" then { t with fadeEffect := if v = "none" then none else some v }
  else if key = "fade_duration" then { t with fadeDuration := parseFloatU v }
  else if key = "fade_offset" then { t with fadeOffset := parseFloatU v }
  else if key = "created_at" then { t with createdAt := some v }
  else t

/-- One line of the single-pass key accumulation of
`parseProgressTargetFile`. -/
def stepTarget (t : PartTarget) (line : String) : PartTarget :=
  match lineKV line with
  | none => t
  | some kv => updateTarget t kv.1 kv.2

/-- The single-pass key accumulation of `parseProgressTargetFile`. -/
def accumTarget (lines : List String) : PartTarget :=
  lines.foldl stepTarget {}

/-- JS truthiness of an optional string (`undefined` and `''` are falsy). -/
def truthyStr : Option String → Bool
  | none => false
  | some s => s != ""

/-- JS truthiness of an optional number (`undefined` and `0` are falsy). -/
def truthyQ : Option ℚ → Bool
  | none => false
  | some q => q != 0

/-- JS truthiness of an optional integer. -/
def truthyInt : Option Int → Bool
  | none => false
  | some n => n != 0

/-- `ProgressTarget` as the component actually receives it: the cast
`target as ProgressTarget` only guarantees the three truthiness-checked
fields, so every other field stays optional. -/
structure ProgressTarget where
  queueId : String
  type : Option String
  outputFile : Option String
  totalDuration : ℚ
  totalFrames : Int
  width : Option Int
  height : Option Int
  fps : Option Int
  encoder : Option String
  preset : Option String
  fadeEffect : Option String
  fadeDuration : Option ℚ
  fadeOffset : Option ℚ
  createdAt : Option String
deriving DecidableEq

/-- The final `target as ProgressTarget` view of the accumulated record
(the defaults are unreachable under the truthiness guard). -/
def castTarget (t : PartTarget) : ProgressTarget :=
  { queueId := t.queueId.getD "", type := t.type, outputFile := t.outputFile,
    totalDuration := t.totalDuration.getD 0, totalFrames := t.totalFrames.getD 0,
    width := t.width, height := t.height, fps := t.fps, encoder := t.encoder,
    preset := t.preset, fadeEffect := t.fadeEffect, fadeDuration := t.fadeDuration,
    fadeOffset := t.fadeOffset, createdAt := t.createdAt }

/-- `parseProgressTargetFile` (ProgressTracker.tsx): the result is returned
only when `target.queueId && target.totalDuration && target.totalFrames`
is truthy. -/
def parseProgressTargetFile (text : String) : Option ProgressTarget :=
  let t := accumTarget (linesOf text)
  if truthyStr t.queueId && truthyQ t.totalDuration && truthyInt t.totalFrames then
    some (castTarget t)
  else none

/-! ## Base names and the directory scanner (`readDirectoryFiles`) -/

/-- The alternation `replace(/\.(mp4|mkv|avi)$/, '')`: a single regex
match, so at most one extension is removed. -/
def chopMediaExt (s : String) : String :=
  if endsWithS s (".mp4") then chopEnd s (".mp4")
  else if endsWithS s (".mkv") then chopEnd s (".mkv")
  else if endsWithS s (".avi") then chopEnd s (".avi")
  else s

/-- `getBaseFileName` (ProgressTracker.tsx): strip `_progress.txt`, then
`_progress_target.txt`, then one media extension — each case-sensitively. -/
def getBaseFileName (fileName : String) : String :=
  chopMediaExt (chopEnd (chopEnd fileName ("_progress.txt")) ("_progress_target.txt"))

/-- A browser `File` as the component consumes it: metadata plus the text
content delivered by `file.text()`. -/
structure FileRec where
  name : String
  size : Nat
  lastModified : Int
  type : String
  content : String
deriving DecidableEq

/-- One entry yielded by `handle.values()`; entries of kind `directory`
are skipped by the scan. -/
inductive DirEntry
  | file (f : FileRec)
  | subdir (name : String)
deriving DecidableEq

/-- `FileInfo` (ProgressTracker.tsx). -/
structure FileInfo where
  name : String
  size : Nat
  lastModified : Int
  type : String
  progressData : Option ProgressData
  progressTarget : Option ProgressTarget
deriving DecidableEq

/-- The `FileInfo` pushed for a media file in the first pass
(`file.type || 'unknown'`). -/
def mkFileInfo (f : FileRec) : FileInfo :=
  { name := f.name, size := f.size, lastModified := f.lastModified,
    type := if f.type = "" then "unknown" else f.type,
    progressData := none, progressTarget := none }

/-- A JS `Map<string, File>`, modelled by its `get` behaviour: `set`
replaces any binding of the key and the lookup finds the latest one. -/
abbrev FileMap := List (String × FileRec)

/-- `map.set(k, v)`: the map is only ever consumed through `get`, and
prepending the new binding yields exactly the `get` behaviour of the JS
overwrite-in-place (the latest `set` for a key wins). -/
def mapSet (m : FileMap) (k : String) (v : FileRec) : FileMap :=
  (k, v) :: m

/-- `map.get(k)`. -/
def mapGet (m : FileMap) (k : String) : Option FileRec :=
  (m.find? (fun p => p.1 == k)).map (fun p => p.2)

/-- The three accumulators of the first pass. -/
structure ScanAcc where
  fileList : List FileInfo
  progressFiles : FileMap
  targetFiles : FileMap
deriving DecidableEq

/-- One entry of the first pass of `readDirectoryFiles`: classify by
case-insensitive suffix on the lowercased name, key the sidecar maps by the
base name derived from the original name, and push media files. -/
def scanStep (acc : ScanAcc) (e : DirEntry) : ScanAcc :=
  match e with
  | .subdir _ => acc
  | .file f =>
    let low := lowStr f.name
    let acc1 :=
      if endsWithS low ("_progress.txt") then
        { acc with progressFiles := mapSet acc.progressFiles (getBaseFileName f.name) f }
      else acc
    let acc2 :=
      if endsWithS low ("_progress_target.txt") then
        { acc1 with targetFiles := mapSet acc1.targetFiles (getBaseFileName f.name) f }
      else acc1
    if endsWithS low (".mp4") || endsWithS low (".mkv") || endsWithS low (".avi") then
      { acc2 with fileList := acc2.fileList ++ [mkFileInfo f] }
    else acc2

/-- The second pass of `readDirectoryFiles` for one media entry: look both
sidecars up by the derived base name and attach whatever parses. -/
def attachData (acc : ScanAcc) (fi : FileInfo) : FileInfo :=
  let baseName := getBaseFileName fi.name
  let fi1 :=
    match mapGet acc.targetFiles baseName with
    | some tf =>
      match parseProgressTargetFile tf.content with
      | some t => { fi with progressTarget := some t }
      | none => fi
    | none => fi
  match mapGet acc.progressFiles baseName with
  | some pf =>
    match parseProgressFile pf.content with
    | some p => { fi1 with progressData := some p }
    | none => fi1
  | none => fi1

/-- Stable descending insertion by `lastModified`. -/
def insertDesc (fi : FileInfo) : List FileInfo → List FileInfo
  | [] => [fi]
  | x :: xs => if fi.lastModified > x.lastModified then fi :: x :: xs else x :: insertDesc fi xs

/-- `fileList.sort((a, b) => b.lastModified - a.lastModified)`: stable sort,
newest first. -/
def sortDescLM (l : List FileInfo) : List FileInfo :=
  l.foldl (fun acc fi => insertDesc fi acc) []

/-- `readDirectoryFiles` (ProgressTracker.tsx), success path: first pass,
second pass, and the final sort, as a pure function of the enumerated
directory entries. -/
def readDirectoryFiles (entries : List DirEntry) : List FileInfo :=
  let acc := entries.foldl scanStep { fileList := [], progressFiles := [], targetFiles := [] }
  sortDescLM (acc.fileList.map (attachData acc))

/-! ## The displayed progress percentage (ProgressTracker.tsx, 972-984) -/

/-- The percentage shown next to the progress bar:
`progress === 'end'` forces `100`; otherwise, with a positive target
duration and a positive `outTimeMs`, the out-time (microseconds) is
converted to seconds and `Math.round(Math.min(ratio * 100, 100))` is
displayed; otherwise `0`. -/
def progressPercent (pd : ProgressData) (t : ProgressTarget) : Int :=
  if pd.progress = "end" then 100
  else if 0 < t.totalDuration ∧ 0 < pd.outTimeMs then
    round (min (((pd.outTimeMs : ℚ) / 1000000) / t.totalDuration * 100) 100)
  else 0

/-- The specification's formula for the same quantity:
`min(100, round(outSeconds / totalDurationSeconds * 100))`. -/
def spec_progressPercent (pd : ProgressData) (t : ProgressTarget) : Int :=
  if pd.progress = "end" then 100
  else if 0 < t.totalDuration ∧ 0 < pd.outTimeMs then
    min 100 (round (((pd.outTimeMs : ℚ) / 1000000) / t.totalDuration * 100))
  else 0

/-! ## Capability persistence: grant flow and restore flow

The asynchronous flows of `ProgressTracker.tsx` are embedded as state
transitions over explicit environments describing the outcomes of the
platform operations (IndexedDB, the directory picker, verification).
Directory handles are identified by their name.
-/

/-- Outcome of the IndexedDB work inside `saveDirectoryHandle`. -/
inductive SaveOutcome
  | ok
  | openFailed
  | putFailed
deriving DecidableEq

/-- `saveDirectoryHandle` (ProgressTracker.tsx): the surrounding
`try/catch` intercepts only synchronous faults (and the awaited
`navigator.storage.persist()` preamble); the IndexedDB promise it returns
is rejected by `request.onerror` / `putRequest.onerror`, and that
rejection reaches whoever awaits the call. -/
def saveDirectoryHandle : SaveOutcome → Except String Unit
  | .ok => .ok ()
  | .openFailed => .error "Failed to open IndexedDB"
  | .putFailed => .error "Failed to save handle"

/-- Environment of one run of `openDirectoryPicker`. -/
structure PickerEnv where
  supported : Bool
  userAborted : Bool
  save : SaveOutcome
  scanOk : Bool
deriving DecidableEq

/-- The component state touched by the grant flow.  `savedDirName` is the
`vmx_directory_name` localStorage record, `handlePersisted` says whether
the IndexedDB record holds the new handle afterwards, `scanRan` whether
`readDirectoryFiles` was reached. -/
structure TrackerState where
  directoryHandle : Option String
  directoryPath : String
  savedDirName : Option String
  errorMsg : String
  scanRan : Bool
  handlePersisted : Bool
deriving DecidableEq

/-- `openDirectoryPicker` (ProgressTracker.tsx) as a state transition: on
non-support it only surfaces an error; on user abort it stays in the prior
state; otherwise it sets the handle, path and display name, awaits
`saveDirectoryHandle` — whose rejection is caught by the outer handler,
surfacing the error and skipping the scan — and finally reads the
directory. -/
def openDirectoryPicker (env : PickerEnv) (st : TrackerState) (handleName : String) :
    TrackerState :=
  if !env.supported then
    { st with errorMsg := "File System Access API tidak didukung di browser ini." }
  else if env.userAborted then
    { st with errorMsg := "" }
  else
    let st1 := { st with
      errorMsg := ""
      directoryHandle := some handleName
      directoryPath := handleName
      savedDirName := some handleName }
    match saveDirectoryHandle env.save with
    | .error e => { st1 with errorMsg := e, scanRan := false, handlePersisted := false }
    | .ok _ =>
      let st2 := { st1 with handlePersisted := true, scanRan := true }
      if env.scanOk then st2
      else { st2 with errorMsg := "Gagal membaca file dari directory" }

/-- Environment of the mount-time restore effect: the stored IndexedDB
record, the oracle `validHandle` (the outcome of `verifyDirectoryHandle`,
which never throws), whether the IndexedDB delete of
`clearDirectoryHandle` succeeds, and the display-only saved name. -/
structure RestoreEnv where
  supported : Bool
  stored : Option String
  validHandle : String → Bool
  deleteOk : Bool
  savedDirName : Option String

/-- The observable outcome of the restore effect. -/
structure RestoreResult where
  directoryHandle : Option String
  directoryPath : String
  scanRan : Bool
  storeAfter : Option String
  isRestoring : Bool
deriving DecidableEq

/-- The `restoreDirectory` effect run on mount (ProgressTracker.tsx):
restore the handle from IndexedDB; verify it; on success set it and scan;
on failed verification call `clearDirectoryHandle` and fall through with
no handle and no scan (a failing delete rejects into the outer catch,
leaving the stale record); with no stored handle only the display name is
recovered.  `finally` always ends the restoring phase. -/
def restoreDirectory (env : RestoreEnv) : RestoreResult :=
  if !env.supported then
    { directoryHandle := none, directoryPath := "", scanRan := false,
      storeAfter := env.stored, isRestoring := false }
  else
    match env.stored with
    | some h =>
      if env.validHandle h then
        { directoryHandle := some h, directoryPath := h, scanRan := true,
          storeAfter := env.stored, isRestoring := false }
      else
        { directoryHandle := none, directoryPath := "", scanRan := false,
          storeAfter := if env.deleteOk then none else env.stored, isRestoring := false }
    | none =>
      { directoryHandle := none, directoryPath := env.savedDirName.getD "",
        scanRan := false, storeAfter := none, isRestoring := false }

/-! ## The queue poller (`QueueView.tsx`) -/

/-- `QueueItem` (QueueView.tsx). -/
structure QueueItem where
  id : String
  type : String
  status : String
  progress : Int
  outputFile : String
  width : Int
  height : Int
  fps : Int
  encoder : Option String
  preset : Option String
  createdAt : String
  updatedAt : String
  errorMessage : Option String
deriving DecidableEq

/-- The poller state: the cached job list, the transient error, the set of
job ids with a cancellation in flight, and the loading flag. -/
structure QueueState where
  queueItems : List QueueItem
  errorMsg : String
  cancellingIds : List String
  loading : Bool
deriving DecidableEq

/-- `fetchQueue` (QueueView.tsx) applied to the state: a successful fetch
replaces the job list and clears the error; a failed one sets the error
and keeps the previous list; `finally` ends loading. -/
def applyFetch (res : Except String (List QueueItem)) (st : QueueState) : QueueState :=
  match res with
  | .ok data => { st with queueItems := data, errorMsg := "", loading := false }
  | .error e => { st with errorMsg := e, loading := false }

/-- `new Set(prev).add(x)`. -/
def setAdd (l : List String) (x : String) : List String :=
  if l.contains x then l else l ++ [x]

/-- `newSet.delete(x)` on a copy of the set. -/
def setDelete (l : List String) (x : String) : List String :=
  l.filter (fun y => y != x)

/-- Environment of one `cancelQueueItem` run: the `confirm()` answer, the
outcome of the `DELETE /api/queue/cancel` round-trip, and the outcome of
the follow-up `fetchQueue`. -/
structure CancelEnv where
  confirmed : Bool
  cancelResult : Except String Unit
  fetchResult : Except String (List QueueItem)

/-- The trace of one `cancelQueueItem` run: the state while the
cancellation is in flight, the state after the `finally`, whether a fresh
fetch was issued, and whether an error auto-clear timeout was scheduled. -/
structure CancelTrace where
  midState : QueueState
  finalState : QueueState
  fetchedFresh : Bool
  errorAutoClear : Bool
deriving DecidableEq

/-- `cancelQueueItem` (QueueView.tsx): without confirmation nothing
happens; otherwise the id is added to `cancellingIds`, the cancel request
is issued, a success immediately awaits `fetchQueue` (which alone may
change the displayed items), a failure sets the error and schedules
`setTimeout(() => setError(''), 5000)`, and the `finally` removes the id
from `cancellingIds` in every outcome. -/
def cancelQueueItem (env : CancelEnv) (st : QueueState) (queueId : String) : CancelTrace :=
  if !env.confirmed then
    { midState := st, finalState := st, fetchedFresh := false, errorAutoClear := false }
  else
    let stMid := { st with cancellingIds := setAdd st.cancellingIds queueId }
    match env.cancelResult with
    | .ok _ =>
      let stF := applyFetch env.fetchResult stMid
      { midState := stMid
        finalState := { stF with cancellingIds := setDelete stF.cancellingIds queueId }
        fetchedFresh := true
        errorAutoClear := false }
    | .error e =>
      { midState := stMid
        finalState := { stMid with
          errorMsg := e
          cancellingIds := setDelete stMid.cancellingIds queueId }
        fetchedFresh := false
        errorAutoClear := true }

/-- The deferred `setTimeout(() => setError(''), 5000)` callback. -/
def clearErrorLater (st : QueueState) : QueueState := { st with errorMsg := "" }

/-- The cancel button's `disabled={cancellingIds.has(item.id)}` binding
(QueueView.tsx). -/
def cancelDisabled (st : QueueState) (id : String) : Bool := st.cancellingIds.contains id

/-! ## Specification-side block structure of a progress log

The following `spec_` definitions follow the specification's words, for
comparison with `parseProgressFile`: a block starts at every `frame` key
and collects the following lines; the log format closes every snapshot
block with a `progress=` line, so the file "ends mid-block" when its final
frame-delimited block has no `progress` key.
-/

/-- Frame-delimited blocks of the (filtered) lines; lines before the first
`frame` key belong to no block. -/
def blocksOfLines (lines : List String) : List (List String) :=
  let r := lines.foldl (fun (acc : List (List String) × Option (List String)) line =>
    if lineKey line = some "frame" then
      match acc.2 with
      | some b => (acc.1 ++ [b], some [line])
      | none => (acc.1, some [line])
    else
      match acc.2 with
      | some b => (acc.1, some (b ++ [line]))
      | none => acc) ([], none)
  match r.2 with
  | some b => r.1 ++ [b]
  | none => r.1

/-- Modelled from the spec: the file ends mid-block when the final
frame-delimited block is not closed by a `progress=` line. -/
def spec_endsMidBlock (text : String) : Bool :=
  match (blocksOfLines (linesOf text)).getLast? with
  | some b => !(b.any (fun l => lineKey l == some "progress"))
  | none => false

/-- Modelled from the spec: the fields of the second-to-last
frame-delimited block (the recognised keys applied to a fresh block). -/
def spec_secondToLastBlock (text : String) : Option ProgressData :=
  match (blocksOfLines (linesOf text)).reverse with
  | _ :: b :: _ => parseProgressLines b
  | _ => none

/-- Modelled from the spec: the fields of the last (possibly partial)
frame-delimited block. -/
def spec_lastBlock (text : String) : Option ProgressData :=
  ((blocksOfLines (linesOf text)).getLast?).bind parseProgressLines

/-- The claim's parser, from its words: the second-to-last block's fields
when the file does not end mid-block, otherwise the last (possibly
partial) block. -/
def spec_claimC1Result (text : String) : Option ProgressData :=
  if spec_endsMidBlock text then spec_lastBlock text else spec_secondToLastBlock text

/-- The accumulated effect of a block's non-`frame` lines on the fresh
block object (used to state that the parser's result is computed from the
final block alone). -/
def runBlock (c : ProgressData) : List String → ProgressData
  | [] => c
  | x :: xs =>
    match lineKV x with
    | none => runBlock c xs
    | some kv => runBlock (updateProgress c kv.1 kv.2) xs

/-- The media-file classification of the first pass: the lowercased name
ends with one of the three media extensions. -/
def isMediaLow (name : String) : Bool :=
  endsWithS (lowStr name) (".mp4") || endsWithS (lowStr name) (".mkv") ||
    endsWithS (lowStr name) (".avi")

/-! ## Lemmas about prefixes, suffixes and lower-casing -/

theorem listPref_iff (a : List Char) : ∀ b, listPref a b = true ↔ ∃ r, b = a ++ r := by
  induction a with
  | nil => intro b; simp [listPref]
  | cons x xs ih =>
    intro b
    cases b with
    | nil => simp [listPref]
    | cons y ys =>
      simp only [listPref, Bool.and_eq_true, decide_eq_true_eq, ih ys]
      constructor
      · rintro ⟨rfl, r, rfl⟩
        exact ⟨r, rfl⟩
      · rintro ⟨r, he⟩
        injection he with h1 h2
        exact ⟨h1.symm, r, h2⟩

theorem listPref_isPrefix (a b : List Char) : listPref a b = true ↔ a <+: b := by
  rw [listPref_iff]
  constructor
  · rintro ⟨r, rfl⟩; exact ⟨r, rfl⟩
  · rintro ⟨r, rfl⟩; exact ⟨r, rfl⟩

theorem listPref_map (f : Char → Char) {a b : List Char} (h : listPref a b = true) :
    listPref (a.map f) (b.map f) = true := by
  rw [listPref_iff] at h ⊢
  obtain ⟨r, rfl⟩ := h
  exact ⟨r.map f, by simp⟩

theorem listPref_of_le {a b l : List Char} (ha : listPref a l = true)
    (hb : listPref b l = true) (hl : a.length ≤ b.length) : listPref a b = true := by
  rw [listPref_isPrefix] at ha hb ⊢
  exact List.prefix_of_prefix_length_le ha hb hl

theorem endsWithS_iff (s t : String) : endsWithS s t = true ↔ ∃ r, s.data = r ++ t.data := by
  unfold endsWithS
  rw [listPref_iff]
  constructor
  · rintro ⟨r, hr⟩
    refine ⟨r.reverse, ?_⟩
    have := congrArg List.reverse hr
    simpa [List.reverse_append] using this
  · rintro ⟨r, hr⟩
    refine ⟨r.reverse, ?_⟩
    rw [hr, List.reverse_append]

theorem endsWithS_low {s t : String} (h : endsWithS s t = true) :
    endsWithS (lowStr s) (lowStr t) = true := by
  unfold endsWithS at h ⊢
  show listPref ((lowStr t).data.reverse) ((lowStr s).data.reverse) = true
  have e1 : (lowStr t).data.reverse = t.data.reverse.map lowChar := by
    show (t.data.map lowChar).reverse = _
    rw [List.map_reverse]
  have e2 : (lowStr s).data.reverse = s.data.reverse.map lowChar := by
    show (s.data.map lowChar).reverse = _
    rw [List.map_reverse]
  rw [e1, e2]
  exact listPref_map lowChar h

theorem endsWithS_of_both {s a b : String} (ha : endsWithS s a = true)
    (hb : endsWithS s b = true) (hl : a.data.length ≤ b.data.length) :
    endsWithS b a = true := by
  unfold endsWithS at ha hb ⊢
  exact listPref_of_le ha hb (by simpa using hl)

theorem str_eq_of_data {s t : String} (h : s.data = t.data) : s = t := by
  cases s
  cases t
  exact congrArg String.mk h

theorem chopEnd_data {s t : String} (h : endsWithS s t = true) :
    (chopEnd s t).data ++ t.data = s.data := by
  obtain ⟨r, hr⟩ := (endsWithS_iff s t).mp h
  have hrev : s.data.reverse = t.data.reverse ++ r.reverse := by
    rw [hr, List.reverse_append]
  unfold chopEnd
  rw [if_pos h]
  show ((s.data.reverse.drop t.data.length).reverse : List Char) ++ t.data = s.data
  rw [hrev]
  have hlen : t.data.length = t.data.reverse.length := (List.length_reverse _).symm
  rw [hlen, List.drop_left, List.reverse_reverse, hr]

theorem chopEnd_not {s t : String} (h : endsWithS s t = false) : chopEnd s t = s := by
  unfold chopEnd
  rw [if_neg (by simp [h])]

/-! ## Lemmas about the progress-log fold -/

theorem stepProgress_of_noframe {l : String} (h : lineKey l ≠ some "frame")
    (last : Option ProgressData) :
    stepProgress (none, last) l = (none, last) := by
  unfold stepProgress
  cases hkv : lineKV l with
  | none => rfl
  | some kv =>
    have hk : kv.1 ≠ "frame" := by
      intro he
      exact h (by simp [lineKey, hkv, he])
    simp [hk]

theorem foldl_stepProgress_noframe (lines : List String)
    (h : ∀ l ∈ lines, lineKey l ≠ some "frame") (last : Option ProgressData) :
    lines.foldl stepProgress (none, last) = (none, last) := by
  induction lines with
  | nil => rfl
  | cons x xs ih =>
    rw [List.foldl_cons, stepProgress_of_noframe (h x (by simp)) last]
    exact ih (fun l hl => h l (by simp [hl]))

theorem stepProgress_of_frame {f : String} {kv : String × String}
    (hkv : lineKV f = some kv) (hk : kv.1 = "frame")
    (st : Option ProgressData × Option ProgressData) :
    stepProgress st f =
      (some (initProgress kv.2), match st.1 with | some c => some c | none => st.2) := by
  unfold stepProgress
  rw [hkv]
  simp [hk]

theorem foldl_stepProgress_block (post : List String)
    (h : ∀ l ∈ post, lineKey l ≠ some "frame") (c : ProgressData)
    (last : Option ProgressData) :
    post.foldl stepProgress (some c, last) = (some (runBlock c post), last) := by
  induction post generalizing c with
  | nil => rfl
  | cons x xs ih =>
    rw [List.foldl_cons]
    have hx := h x (by simp)
    cases hkv : lineKV x with
    | none =>
      have : stepProgress (some c, last) x = (some c, last) := by
        unfold stepProgress; rw [hkv]
      rw [this, ih (fun l hl => h l (by simp [hl])), runBlock, hkv]
    | some kv =>
      have hk : kv.1 ≠ "frame" := by
        intro he
        exact hx (by simp [lineKey, hkv, he])
      have : stepProgress (some c, last) x = (some (updateProgress c kv.1 kv.2), last) := by
        unfold stepProgress; rw [hkv]; simp [hk]
      rw [this, ih (fun l hl => h l (by simp [hl])), runBlock, hkv]

/-! ## Claim C1 -/

/-- Claim C1, counterexample: on a two-block log whose final block is
closed by a `progress=` line (so the file does not end mid-block),
`parseProgressFile` does not return the second-to-last block's fields as
the claim predicts — it returns the last block (`frame = 2`,
`progress = end`), not the `frame = 1` block. -/
theorem claimC1_cex :
    (blocksOfLines (linesOf "frame=1\nprogress=continue\nframe=2\nprogress=end")).length = 2 ∧
    spec_endsMidBlock "frame=1\nprogress=continue\nframe=2\nprogress=end" = false ∧
    spec_secondToLastBlock "frame=1\nprogress=continue\nframe=2\nprogress=end" =
      some { frame := 1, fps := 0, bitrate := "", outTime := "", outTimeMs := 0,
             speed := "", progress := "continue", totalSize := 0, streamQuality := none } ∧
    parseProgressFile "frame=1\nprogress=continue\nframe=2\nprogress=end" =
      some { frame := 2, fps := 0, bitrate := "", outTime := "", outTimeMs := 0,
             speed := "", progress := "end", totalSize := 0, streamQuality := none } ∧
    parseProgressFile "frame=1\nprogress=continue\nframe=2\nprogress=end" ≠
      spec_claimC1Result "frame=1\nprogress=continue\nframe=2\nprogress=end" := by
  refine ⟨by decide, by decide, by decide, by decide, by decide⟩

/-- Claim C1, amended: whenever the filtered lines of the log decompose as
`pre ++ f :: post` with `f` the last `frame`-keyed line, the parser's
result is exactly the result of parsing the final block `f :: post` alone
— so it always returns the last (possibly partial) block's fields, never
the first block of an `N ≥ 2` log and never a merge of fields from two
different blocks — and a log with at least one `frame` line always yields
a snapshot. -/
theorem claimC1_amended (text : String) (pre : List String) (f : String)
    (post : List String) (hsplit : linesOf text = pre ++ f :: post)
    (hf : lineKey f = some "frame")
    (hpost : ∀ l ∈ post, lineKey l ≠ some "frame") :
    parseProgressFile text = parseProgressLines (f :: post) ∧
    (parseProgressFile text).isSome = true := by
  obtain ⟨kv, hkv, hk⟩ : ∃ kv, lineKV f = some kv ∧ kv.1 = "frame" := by
    cases hkv : lineKV f with
    | none => simp [lineKey, hkv] at hf
    | some kv =>
      refine ⟨kv, rfl, ?_⟩
      simpa [lineKey, hkv] using hf
  have core : ∀ xs : List String, xs = pre ++ f :: post ∨ xs = f :: post →
      parseProgressLines xs = some (runBlock (initProgress kv.2) post) := by
    intro xs hxs
    have base : ∀ ys : List String,
        parseProgressLines (ys ++ f :: post) = some (runBlock (initProgress kv.2) post) := by
      intro ys
      unfold parseProgressLines
      simp only [List.foldl_append, List.foldl_cons, stepProgress_of_frame hkv hk,
        foldl_stepProgress_block post hpost]
    rcases hxs with hxs | hxs
    · rw [hxs]; exact base pre
    · rw [hxs, show f :: post = [] ++ f :: post from rfl]; exact base []
  have e1 : parseProgressFile text = some (runBlock (initProgress kv.2) post) := by
    show parseProgressLines (linesOf text) = _
    rw [hsplit]
    exact core _ (Or.inl rfl)
  refine ⟨?_, ?_⟩
  · rw [e1, core (f :: post) (Or.inr rfl)]
  · rw [e1]; rfl

/-- Witness for `claimC1_amended` at a concrete three-line log. -/
theorem claimC1_witness :
    parseProgressFile "frame=7\nfps=30\nframe=9\nout_time_ms=5" =
      parseProgressLines ["frame=9", "out_time_ms=5"] ∧
    (parseProgressFile "frame=7\nfps=30\nframe=9\nout_time_ms=5").isSome = true :=
  claimC1_amended "frame=7\nfps=30\nframe=9\nout_time_ms=5" ["frame=7", "fps=30"]
    "frame=9" ["out_time_ms=5"] (by decide) (by decide) (by decide)

/-! ## Claim C8 -/

/-- Claim C8: a progress log containing zero `frame`-keyed lines parses to
absent, whatever other recognised or unrecognised keys appear. -/
theorem claimC8_noFrame (text : String)
    (h : ∀ l ∈ linesOf text, lineKey l ≠ some "frame") :
    parseProgressFile text = none := by
  show parseProgressLines (linesOf text) = none
  unfold parseProgressLines
  rw [foldl_stepProgress_noframe (linesOf text) h none]

/-- Witness for `claimC8_noFrame` on a log with several non-`frame` keys. -/
theorem claimC8_witness :
    parseProgressFile "fps=30\nbitrate=2000k\nprogress=end\ngarbage line" = none :=
  claimC8_noFrame "fps=30\nbitrate=2000k\nprogress=end\ngarbage line" (by decide)

/-! ## Claim C3 -/

theorem round_min_hundred (x : ℚ) : round (min x 100) = min 100 (round x) := by
  have h100 : round (100 : ℚ) = 100 := by
    norm_num [round_eq]
  have hm : ∀ a b : ℚ, a ≤ b → round a ≤ round b := by
    intro a b hab
    rw [round_eq, round_eq]
    exact Int.floor_le_floor (by linarith)
  rcases le_total x 100 with h | h
  · rw [min_eq_left h, min_eq_right]
    calc round x ≤ round (100 : ℚ) := hm x 100 h
      _ = 100 := h100
  · rw [min_eq_right h, h100, min_eq_left]
    calc (100 : ℤ) = round (100 : ℚ) := h100.symm
      _ ≤ round x := hm 100 x h

/-- Claim C3: for every snapshot-and-target pair, the displayed percentage
equals the specification's `min(100, round(outSeconds / duration * 100))`
formula — `100` when the snapshot state is `end`, `0` when the duration or
the out-time is not positive — and it always lies in `[0, 100]`;
in particular `out_time_ms = 60000000` over a 120-second target displays
`50`, and an out-time exceeding the duration clamps to `100`. -/
theorem claimC3_percent (pd : ProgressData) (t : ProgressTarget) :
    progressPercent pd t = spec_progressPercent pd t ∧
    0 ≤ progressPercent pd t ∧ progressPercent pd t ≤ 100 := by
  unfold progressPercent spec_progressPercent
  by_cases hend : pd.progress = "end"
  · simp [hend]
  · by_cases hpos : 0 < t.totalDuration ∧ 0 < pd.outTimeMs
    · simp only [hend, hpos, if_neg, if_pos, if_true, if_false]
      set x : ℚ := ((pd.outTimeMs : ℚ) / 1000000) / t.totalDuration * 100 with hx
      have hx0 : 0 ≤ x := by
        have h1 : (0 : ℚ) < (pd.outTimeMs : ℚ) := by exact_mod_cast hpos.2
        have h2 : (0 : ℚ) < t.totalDuration := hpos.1
        positivity
      have hmin0 : 0 ≤ min x 100 := le_min hx0 (by norm_num)
      have hminle : min x 100 ≤ 100 := min_le_right x 100
      refine ⟨round_min_hundred x, ?_, ?_⟩
      · rw [round_eq]
        have : (0 : ℤ) = ⌊(0 : ℚ)⌋ := by norm_num
        rw [this]
        exact Int.floor_le_floor (by linarith)
      · rw [round_eq]
        have h201 : ⌊(201 : ℚ) / 2⌋ = 100 := by norm_num
        calc ⌊min x 100 + 1 / 2⌋ ≤ ⌊(201 : ℚ) / 2⌋ := Int.floor_le_floor (by linarith)
          _ = 100 := h201
    · simp [hend, hpos]

/-- Claim C3's concrete examples, evaluated on the embedded percentage:
60 seconds of out-time against a 120-second target displays 50; an
out-time past the end clamps to 100; a zero out-time displays 0; the `end`
state forces 100 whatever the time fields say. -/
theorem claimC3_examples :
    progressPercent
      { frame := 10, fps := 0, bitrate := "", outTime := "", outTimeMs := 60000000,
        speed := "", progress := "continue", totalSize := 0, streamQuality := none }
      { queueId := "q", type := none, outputFile := none, totalDuration := 120,
        totalFrames := 3600, width := none, height := none, fps := none,
        encoder := none, preset := none, fadeEffect := none, fadeDuration := none,
        fadeOffset := none, createdAt := none } = 50 ∧
    progressPercent
      { frame := 10, fps := 0, bitrate := "", outTime := "", outTimeMs := 999000000,
        speed := "", progress := "continue", totalSize := 0, streamQuality := none }
      { queueId := "q", type := none, outputFile := none, totalDuration := 120,
        totalFrames := 3600, width := none, height := none, fps := none,
        encoder := none, preset := none, fadeEffect := none, fadeDuration := none,
        fadeOffset := none, createdAt := none } = 100 ∧
    progressPercent
      { frame := 10, fps := 0, bitrate := "", outTime := "", outTimeMs := 0,
        speed := "", progress := "continue", totalSize := 0, streamQuality := none }
      { queueId := "q", type := none, outputFile := none, totalDuration := 120,
        totalFrames := 3600, width := none, height := none, fps := none,
        encoder := none, preset := none, fadeEffect := none, fadeDuration := none,
        fadeOffset := none, createdAt := none } = 0 ∧
    progressPercent
      { frame := 10, fps := 0, bitrate := "", outTime := "", outTimeMs := 1,
        speed := "", progress := "end", totalSize := 0, streamQuality := none }
      { queueId := "q", type := none, outputFile := none, totalDuration := 120,
        totalFrames := 3600, width := none, height := none, fps := none,
        encoder := none, preset := none, fadeEffect := none, fadeDuration := none,
        fadeOffset := none, createdAt := none } = 100 := by
  refine ⟨?_, ?_, ?_, ?_⟩ <;> norm_num [progressPercent, round_eq] <;> decide

/-! ## Claim C4 -/

theorem foldl_stepTarget_keep {γ : Type} (proj : PartTarget → γ) (k0 : String)
    (hupd : ∀ t k v, k ≠ k0 → proj (updateTarget t k v) = proj t)
    (lines : List String) (h : ∀ l ∈ lines, lineKey l ≠ some k0) (t : PartTarget) :
    proj (lines.foldl stepTarget t) = proj t := by
  induction lines generalizing t with
  | nil => rfl
  | cons x xs ih =>
    rw [List.foldl_cons]
    have hrest := ih (fun l hl => h l (by simp [hl]))
    cases hkv : lineKV x with
    | none =>
      rw [show stepTarget t x = t by unfold stepTarget; rw [hkv]]
      exact hrest t
    | some kv =>
      have hk : kv.1 ≠ k0 := by
        intro he
        exact h x (by simp) (by simp [lineKey, hkv, he])
      rw [show stepTarget t x = updateTarget t kv.1 kv.2 by unfold stepTarget; rw [hkv]]
      rw [hrest (updateTarget t kv.1 kv.2), hupd t kv.1 kv.2 hk]

theorem updateTarget_keep_totalFrames (t : PartTarget) (k v : String)
    (h : k ≠ "total_frames") : (updateTarget t k v).totalFrames = t.totalFrames := by
  unfold updateTarget
  by_cases h1 : k = "queue_id"
  · rw [if_pos h1]
  rw [if_neg h1]
  by_cases h2 : k = "type"
  · rw [if_pos h2]
  rw [if_neg h2]
  by_cases h3 : k = "output_file"
  · rw [if_pos h3]
  rw [if_neg h3]
  by_cases h4 : k = "total_duration"
  · rw [if_pos h4]
  rw [if_neg h4]
  rw [if_neg (show ¬k = "total_frames" from h)]
  by_cases h6 : k = "width"
  · rw [if_pos h6]
  rw [if_neg h6]
  by_cases h7 : k = "height"
  · rw [if_pos h7]
  rw [if_neg h7]
  by_cases h8 : k = "fps"
  · rw [if_pos h8]
  rw [if_neg h8]
  by_cases h9 : k = "encoder"
  · rw [if_pos h9]
  rw [if_neg h9]
  by_cases h10 : k = "preset"
  · rw [if_pos h10]
  rw [if_neg h10]
  by_cases h11 : k = "fade_effect"
  · rw [if_pos h11]
  rw [if_neg h11]
  by_cases h12 : k = "fade_duration"
  · rw [if_pos h12]
  rw [if_neg h12]
  by_cases h13 : k = "fade_offset"
  · rw [if_pos h13]
  rw [if_neg h13]
  by_cases h14 : k = "created_at"
  · rw [if_pos h14]
  rw [if_neg h14]

theorem updateTarget_keep_queueId (t : PartTarget) (k v : String)
    (h : k ≠ "queue_id") : (updateTarget t k v).queueId = t.queueId := by
  unfold updateTarget
  rw [if_neg (show ¬k = "queue_id" from h)]
  by_cases h2 : k = "type"
  · rw [if_pos h2]
  rw [if_neg h2]
  by_cases h3 : k = "output_file"
  · rw [if_pos h3]
  rw [if_neg h3]
  by_cases h4 : k = "total_duration"
  · rw [if_pos h4]
  rw [if_neg h4]
  by_cases h5 : k = "total_frames"
  · rw [if_pos h5]
  rw [if_neg h5]
  by_cases h6 : k = "width"
  · rw [if_pos h6]
  rw [if_neg h6]
  by_cases h7 : k = "height"
  · rw [if_pos h7]
  rw [if_neg h7]
  by_cases h8 : k = "fps"
  · rw [if_pos h8]
  rw [if_neg h8]
  by_cases h9 : k = "encoder"
  · rw [if_pos h9]
  rw [if_neg h9]
  by_cases h10 : k = "preset"
  · rw [if_pos h10]
  rw [if_neg h10]
  by_cases h11 : k = "fade_effect"
  · rw [if_pos h11]
  rw [if_neg h11]
  by_cases h12 : k = "fade_duration"
  · rw [if_pos h12]
  rw [if_neg h12]
  by_cases h13 : k = "fade_offset"
  · rw [if_pos h13]
  rw [if_neg h13]
  by_cases h14 : k = "created_at"
  · rw [if_pos h14]
  rw [if_neg h14]

theorem updateTarget_keep_totalDuration (t : PartTarget) (k v : String)
    (h : k ≠ "total_duration") : (updateTarget t k v).totalDuration = t.totalDuration := by
  unfold updateTarget
  by_cases h1 : k = "queue_id"
  · rw [if_pos h1]
  rw [if_neg h1]
  by_cases h2 : k = "type"
  · rw [if_pos h2]
  rw [if_neg h2]
  by_cases h3 : k = "output_file"
  · rw [if_pos h3]
  rw [if_neg h3]
  rw [if_neg (show ¬k = "total_duration" from h)]
  by_cases h5 : k = "total_frames"
  · rw [if_pos h5]
  rw [if_neg h5]
  by_cases h6 : k = "width"
  · rw [if_pos h6]
  rw [if_neg h6]
  by_cases h7 : k = "height"
  · rw [if_pos h7]
  rw [if_neg h7]
  by_cases h8 : k = "fps"
  · rw [if_pos h8]
  rw [if_neg h8]
  by_cases h9 : k = "encoder"
  · rw [if_pos h9]
  rw [if_neg h9]
  by_cases h10 : k = "preset"
  · rw [if_pos h10]
  rw [if_neg h10]
  by_cases h11 : k = "fade_effect"
  · rw [if_pos h11]
  rw [if_neg h11]
  by_cases h12 : k = "fade_duration"
  · rw [if_pos h12]
  rw [if_neg h12]
  by_cases h13 : k = "fade_offset"
  · rw [if_pos h13]
  rw [if_neg h13]
  by_cases h14 : k = "created_at"
  · rw [if_pos h14]
  rw [if_neg h14]

/-- Claim C4: the target parse is non-absent exactly when the accumulated
`queue_id` is present and non-empty and the accumulated `total_duration`
and `total_frames` are present and nonzero; consequently a descriptor
whose lines never carry the key `total_frames` (or `queue_id`, or
`total_duration`) parses to absent whatever else is present. -/
theorem claimC4_targetValidity (text : String) :
    ((parseProgressTargetFile text).isSome = true ↔
      (truthyStr (accumTarget (linesOf text)).queueId = true ∧
       truthyQ (accumTarget (linesOf text)).totalDuration = true ∧
       truthyInt (accumTarget (linesOf text)).totalFrames = true)) ∧
    ((∀ l ∈ linesOf text, lineKey l ≠ some "total_frames") →
      parseProgressTargetFile text = none) ∧
    ((∀ l ∈ linesOf text, lineKey l ≠ some "queue_id") →
      parseProgressTargetFile text = none) ∧
    ((∀ l ∈ linesOf text, lineKey l ≠ some "total_duration") →
      parseProgressTargetFile text = none) := by
  refine ⟨?_, ?_, ?_, ?_⟩
  · unfold parseProgressTargetFile
    cases hq : truthyStr (accumTarget (linesOf text)).queueId <;>
      cases hd : truthyQ (accumTarget (linesOf text)).totalDuration <;>
        cases hf : truthyInt (accumTarget (linesOf text)).totalFrames <;>
          simp [hq, hd, hf]
  · intro h
    have hnone : (accumTarget (linesOf text)).totalFrames = none :=
      foldl_stepTarget_keep PartTarget.totalFrames "total_frames"
        updateTarget_keep_totalFrames (linesOf text) h {}
    unfold parseProgressTargetFile
    simp [hnone, truthyInt]
  · intro h
    have hnone : (accumTarget (linesOf text)).queueId = none :=
      foldl_stepTarget_keep PartTarget.queueId "queue_id"
        updateTarget_keep_queueId (linesOf text) h {}
    unfold parseProgressTargetFile
    simp [hnone, truthyStr]
  · intro h
    have hnone : (accumTarget (linesOf text)).totalDuration = none :=
      foldl_stepTarget_keep PartTarget.totalDuration "total_duration"
        updateTarget_keep_totalDuration (linesOf text) h {}
    unfold parseProgressTargetFile
    simp [hnone, truthyQ]

set_option maxRecDepth 4000 in
/-- Witness for `claimC4_targetValidity`: a descriptor carrying every
recognised key except `total_frames` parses to absent. -/
theorem claimC4_witness :
    parseProgressTargetFile
      "queue_id=q1\ntype=video-loop\noutput_file=out.mp4\ntotal_duration=42.5\nwidth=1920\nheight=1080\nfps=30\nencoder=cpu\npreset=fast\nfade_effect=fade-in\nfade_duration=1.5\nfade_offset=2\ncreated_at=2024-01-01" =
      none :=
  (claimC4_targetValidity
    "queue_id=q1\ntype=video-loop\noutput_file=out.mp4\ntotal_duration=42.5\nwidth=1920\nheight=1080\nfps=30\nencoder=cpu\npreset=fast\nfade_effect=fade-in\nfade_duration=1.5\nfade_offset=2\ncreated_at=2024-01-01").2.1
    (by decide)

/-! ## Lemmas about the directory scan -/

theorem mapGet_set (m : FileMap) (k : String) (v : FileRec) (j : String) :
    mapGet (mapSet m k v) j = if k = j then some v else mapGet m j := by
  unfold mapSet mapGet
  by_cases h : k = j
  · rw [if_pos h]
    rw [List.find?_cons_of_pos _ (by simpa using h)]
    rfl
  · rw [if_neg h]
    rw [List.find?_cons_of_neg _ (by simpa using h)]

theorem scanStep_subdir (acc : ScanAcc) (n : String) : scanStep acc (DirEntry.subdir n) = acc := rfl

theorem scanStep_progressFiles (acc : ScanAcc) (g : FileRec) :
    (scanStep acc (DirEntry.file g)).progressFiles =
      if endsWithS (lowStr g.name) ("_progress.txt") then
        mapSet acc.progressFiles (getBaseFileName g.name) g
      else acc.progressFiles := by
  unfold scanStep
  by_cases h1 : endsWithS (lowStr g.name) ("_progress.txt") = true <;>
    by_cases h2 : endsWithS (lowStr g.name) ("_progress_target.txt") = true <;>
      by_cases h3 : (endsWithS (lowStr g.name) (".mp4") || endsWithS (lowStr g.name) (".mkv") ||
        endsWithS (lowStr g.name) (".avi")) = true <;>
        simp [h1, h2, h3]

theorem scanStep_targetFiles (acc : ScanAcc) (g : FileRec) :
    (scanStep acc (DirEntry.file g)).targetFiles =
      if endsWithS (lowStr g.name) ("_progress_target.txt") then
        mapSet acc.targetFiles (getBaseFileName g.name) g
      else acc.targetFiles := by
  unfold scanStep
  by_cases h1 : endsWithS (lowStr g.name) ("_progress.txt") = true <;>
    by_cases h2 : endsWithS (lowStr g.name) ("_progress_target.txt") = true <;>
      by_cases h3 : (endsWithS (lowStr g.name) (".mp4") || endsWithS (lowStr g.name) (".mkv") ||
        endsWithS (lowStr g.name) (".avi")) = true <;>
        simp [h1, h2, h3]

theorem scanStep_fileList (acc : ScanAcc) (g : FileRec) :
    (scanStep acc (DirEntry.file g)).fileList =
      if isMediaLow g.name then acc.fileList ++ [mkFileInfo g] else acc.fileList := by
  unfold scanStep isMediaLow
  by_cases h1 : endsWithS (lowStr g.name) ("_progress.txt") = true <;>
    by_cases h2 : endsWithS (lowStr g.name) ("_progress_target.txt") = true <;>
      by_cases h3 : (endsWithS (lowStr g.name) (".mp4") || endsWithS (lowStr g.name) (".mkv") ||
        endsWithS (lowStr g.name) (".avi")) = true <;>
        simp [h1, h2, h3]

theorem scan_progressFiles_inv (es : List DirEntry) (acc : ScanAcc)
    (k : String) (f : FileRec)
    (hget : mapGet (es.foldl scanStep acc).progressFiles k = some f) :
    mapGet acc.progressFiles k = some f ∨
      (DirEntry.file f ∈ es ∧ endsWithS (lowStr f.name) ("_progress.txt") = true ∧
        getBaseFileName f.name = k) := by
  induction es generalizing acc with
  | nil => exact Or.inl hget
  | cons e es ih =>
    rw [List.foldl_cons] at hget
    rcases ih (scanStep acc e) hget with hin | hnew
    · cases e with
      | subdir n => exact Or.inl (by rwa [scanStep_subdir] at hin)
      | file g =>
        rw [scanStep_progressFiles] at hin
        by_cases hs : endsWithS (lowStr g.name) ("_progress.txt") = true
        · rw [if_pos hs, mapGet_set] at hin
          by_cases hk : getBaseFileName g.name = k
          · rw [if_pos hk] at hin
            have hfg : g = f := Option.some_inj.mp hin
            subst hfg
            exact Or.inr ⟨by simp, hs, hk⟩
          · rw [if_neg hk] at hin
            exact Or.inl hin
        · rw [if_neg hs] at hin
          exact Or.inl hin
    · exact Or.inr ⟨by simp [hnew.1], hnew.2.1, hnew.2.2⟩

theorem scan_targetFiles_inv (es : List DirEntry) (acc : ScanAcc)
    (k : String) (f : FileRec)
    (hget : mapGet (es.foldl scanStep acc).targetFiles k = some f) :
    mapGet acc.targetFiles k = some f ∨
      (DirEntry.file f ∈ es ∧ endsWithS (lowStr f.name) ("_progress_target.txt") = true ∧
        getBaseFileName f.name = k) := by
  induction es generalizing acc with
  | nil => exact Or.inl hget
  | cons e es ih =>
    rw [List.foldl_cons] at hget
    rcases ih (scanStep acc e) hget with hin | hnew
    · cases e with
      | subdir n => exact Or.inl (by rwa [scanStep_subdir] at hin)
      | file g =>
        rw [scanStep_targetFiles] at hin
        by_cases hs : endsWithS (lowStr g.name) ("_progress_target.txt") = true
        · rw [if_pos hs, mapGet_set] at hin
          by_cases hk : getBaseFileName g.name = k
          · rw [if_pos hk] at hin
            have hfg : g = f := Option.some_inj.mp hin
            subst hfg
            exact Or.inr ⟨by simp, hs, hk⟩
          · rw [if_neg hk] at hin
            exact Or.inl hin
        · rw [if_neg hs] at hin
          exact Or.inl hin
    · exact Or.inr ⟨by simp [hnew.1], hnew.2.1, hnew.2.2⟩

theorem scan_fileList_sub (es : List DirEntry) (acc : ScanAcc) (fi : FileInfo)
    (hfi : fi ∈ (es.foldl scanStep acc).fileList) :
    fi ∈ acc.fileList ∨
      ∃ g : FileRec, DirEntry.file g ∈ es ∧ isMediaLow g.name = true ∧ fi = mkFileInfo g := by
  induction es generalizing acc with
  | nil => exact Or.inl hfi
  | cons e es ih =>
    rw [List.foldl_cons] at hfi
    rcases ih (scanStep acc e) hfi with hin | hnew
    · cases e with
      | subdir n => exact Or.inl (by rwa [scanStep_subdir] at hin)
      | file g =>
        rw [scanStep_fileList] at hin
        by_cases hm : isMediaLow g.name = true
        · rw [if_pos hm] at hin
          rcases List.mem_append.mp hin with h | h
          · exact Or.inl h
          · exact Or.inr ⟨g, by simp, hm, by simpa using h⟩
        · rw [if_neg hm] at hin
          exact Or.inl hin
    · obtain ⟨g, hg, hm, he⟩ := hnew
      exact Or.inr ⟨g, by simp [hg], hm, he⟩

theorem scan_fileList_mono (es : List DirEntry) (acc : ScanAcc) (fi : FileInfo)
    (h : fi ∈ acc.fileList) : fi ∈ (es.foldl scanStep acc).fileList := by
  induction es generalizing acc with
  | nil => exact h
  | cons e es ih =>
    rw [List.foldl_cons]
    refine ih (scanStep acc e) ?_
    cases e with
    | subdir n => rwa [scanStep_subdir]
    | file g =>
      rw [scanStep_fileList]
      by_cases hm : isMediaLow g.name = true
      · rw [if_pos hm]
        exact List.mem_append.mpr (Or.inl h)
      · rwa [if_neg hm]

theorem scan_fileList_mem (es : List DirEntry) (acc : ScanAcc) (g : FileRec)
    (hg : DirEntry.file g ∈ es) (hm : isMediaLow g.name = true) :
    mkFileInfo g ∈ (es.foldl scanStep acc).fileList := by
  induction es generalizing acc with
  | nil => cases hg
  | cons e es ih =>
    rw [List.foldl_cons]
    rcases List.mem_cons.mp hg with he | he
    · refine scan_fileList_mono es _ _ ?_
      rw [← he, scanStep_fileList, if_pos hm]
      exact List.mem_append.mpr (Or.inr (by simp))
    · exact ih (scanStep acc e) he

theorem attachData_name (acc : ScanAcc) (fi : FileInfo) : (attachData acc fi).name = fi.name := by
  rcases ht : mapGet acc.targetFiles (getBaseFileName fi.name) with _ | tf
  · rcases hp : mapGet acc.progressFiles (getBaseFileName fi.name) with _ | pf
    · simp [attachData, ht, hp]
    · simp only [attachData, ht, hp]
      all_goals cases parseProgressFile pf.content <;> rfl
  · rcases hp : mapGet acc.progressFiles (getBaseFileName fi.name) with _ | pf
    · simp only [attachData, ht, hp]
      all_goals cases parseProgressTargetFile tf.content <;> rfl
    · simp only [attachData, ht, hp]
      all_goals cases parseProgressTargetFile tf.content <;> cases parseProgressFile pf.content <;> rfl

theorem attachData_pd_none (acc : ScanAcc) (fi : FileInfo)
    (hp : mapGet acc.progressFiles (getBaseFileName fi.name) = none) :
    (attachData acc fi).progressData = fi.progressData := by
  rcases ht : mapGet acc.targetFiles (getBaseFileName fi.name) with _ | tf
  · simp [attachData, ht, hp]
  · simp only [attachData, ht, hp]
    all_goals cases parseProgressTargetFile tf.content <;> rfl

theorem attachData_pd_parse_none (acc : ScanAcc) (fi : FileInfo) (pf : FileRec)
    (hp : mapGet acc.progressFiles (getBaseFileName fi.name) = some pf)
    (hq : parseProgressFile pf.content = none) :
    (attachData acc fi).progressData = fi.progressData := by
  rcases ht : mapGet acc.targetFiles (getBaseFileName fi.name) with _ | tf
  · simp [attachData, ht, hp, hq]
  · simp only [attachData, ht, hp, hq]
    all_goals cases parseProgressTargetFile tf.content <;> rfl

theorem attachData_pd_parse_some (acc : ScanAcc) (fi : FileInfo) (pf : FileRec)
    (p : ProgressData)
    (hp : mapGet acc.progressFiles (getBaseFileName fi.name) = some pf)
    (hq : parseProgressFile pf.content = some p) :
    (attachData acc fi).progressData = some p := by
  rcases ht : mapGet acc.targetFiles (getBaseFileName fi.name) with _ | tf
  · simp [attachData, ht, hp, hq]
  · simp [attachData, ht, hp, hq]

theorem attachData_pt_none (acc : ScanAcc) (fi : FileInfo)
    (ht : mapGet acc.targetFiles (getBaseFileName fi.name) = none) :
    (attachData acc fi).progressTarget = fi.progressTarget := by
  rcases hp : mapGet acc.progressFiles (getBaseFileName fi.name) with _ | pf
  · simp [attachData, ht, hp]
  · simp only [attachData, ht, hp]
    all_goals cases parseProgressFile pf.content <;> rfl

theorem attachData_pt_parse_none (acc : ScanAcc) (fi : FileInfo) (tf : FileRec)
    (ht : mapGet acc.targetFiles (getBaseFileName fi.name) = some tf)
    (hq : parseProgressTargetFile tf.content = none) :
    (attachData acc fi).progressTarget = fi.progressTarget := by
  rcases hp : mapGet acc.progressFiles (getBaseFileName fi.name) with _ | pf
  · simp [attachData, ht, hp, hq]
  · simp only [attachData, ht, hp, hq]
    all_goals cases parseProgressFile pf.content <;> rfl

theorem attachData_pt_parse_some (acc : ScanAcc) (fi : FileInfo) (tf : FileRec)
    (t : ProgressTarget)
    (ht : mapGet acc.targetFiles (getBaseFileName fi.name) = some tf)
    (hq : parseProgressTargetFile tf.content = some t) :
    (attachData acc fi).progressTarget = some t := by
  rcases hp : mapGet acc.progressFiles (getBaseFileName fi.name) with _ | pf
  · simp [attachData, ht, hp, hq]
  · simp only [attachData, ht, hp, hq]
    all_goals cases parseProgressFile pf.content <;> rfl

theorem mem_insertDesc (a x : FileInfo) (l : List FileInfo) :
    a ∈ insertDesc x l ↔ a = x ∨ a ∈ l := by
  induction l with
  | nil => simp [insertDesc]
  | cons y ys ih =>
    unfold insertDesc
    by_cases h : x.lastModified > y.lastModified
    · rw [if_pos h]
      simp
    · rw [if_neg h]
      simp only [List.mem_cons, ih]
      tauto

theorem mem_sortDescLM (a : FileInfo) (l : List FileInfo) :
    a ∈ sortDescLM l ↔ a ∈ l := by
  have aux : ∀ (xs : List FileInfo) (acc : List FileInfo),
      a ∈ xs.foldl (fun acc fi => insertDesc fi acc) acc ↔ a ∈ acc ∨ a ∈ xs := by
    intro xs
    induction xs with
    | nil => intro acc; simp
    | cons y ys ih =>
      intro acc
      rw [List.foldl_cons, ih (insertDesc y acc), mem_insertDesc]
      simp only [List.mem_cons]
      tauto
  unfold sortDescLM
  rw [aux l []]
  simp

/-! ## Lemmas about `getBaseFileName` and case-sensitivity -/

theorem endsWith_false_pair (s a b : String) (ha : endsWithS s a = true)
    (hlen : a.data.length ≤ b.data.length) (hdec : endsWithS b a = false) :
    endsWithS s b = false := by
  cases hc : endsWithS s b with
  | false => rfl
  | true =>
    have hba := endsWithS_of_both ha hc hlen
    rw [hdec] at hba
    exact (Bool.false_ne_true hba).elim

theorem endsWith_false_small (s a b : String) (hb : endsWithS (lowStr s) b = true)
    (hlow : lowStr a = a) (hlen : a.data.length ≤ b.data.length)
    (hdec : endsWithS b a = false) : endsWithS s a = false := by
  cases hc : endsWithS s a with
  | false => rfl
  | true =>
    have h1 := endsWithS_low hc
    rw [hlow] at h1
    have h2 := endsWithS_of_both h1 hb hlen
    rw [hdec] at h2
    exact (Bool.false_ne_true h2).elim

theorem endsWith_false_large (s a b : String) (hb : endsWithS (lowStr s) b = true)
    (hlow : lowStr a = a) (hlen : b.data.length ≤ a.data.length)
    (hdec : endsWithS a b = false) : endsWithS s a = false := by
  cases hc : endsWithS s a with
  | false => rfl
  | true =>
    have h1 := endsWithS_low hc
    rw [hlow] at h1
    have h2 := endsWithS_of_both hb h1 hlen
    rw [hdec] at h2
    exact (Bool.false_ne_true h2).elim

theorem getBase_self_of_plog (s : String)
    (hm : endsWithS (lowStr s) ("_progress.txt") = true)
    (h1 : endsWithS s ("_progress.txt") = false) : getBaseFileName s = s := by
  have hpt : endsWithS s ("_progress_target.txt") = false :=
    endsWith_false_large s ("_progress_target.txt") ("_progress.txt") hm (by decide)
      (by decide) (by decide)
  have h4 : endsWithS s (".mp4") = false :=
    endsWith_false_small s (".mp4") ("_progress.txt") hm (by decide) (by decide) (by decide)
  have h5 : endsWithS s (".mkv") = false :=
    endsWith_false_small s (".mkv") ("_progress.txt") hm (by decide) (by decide) (by decide)
  have h6 : endsWithS s (".avi") = false :=
    endsWith_false_small s (".avi") ("_progress.txt") hm (by decide) (by decide) (by decide)
  unfold getBaseFileName
  rw [chopEnd_not h1, chopEnd_not hpt]
  simp [chopMediaExt, h4, h5, h6]

theorem getBase_self_of_ptarget (s : String)
    (hm : endsWithS (lowStr s) ("_progress_target.txt") = true)
    (h1 : endsWithS s ("_progress_target.txt") = false) : getBaseFileName s = s := by
  have hp : endsWithS s ("_progress.txt") = false :=
    endsWith_false_small s ("_progress.txt") ("_progress_target.txt") hm (by decide)
      (by decide) (by decide)
  have h4 : endsWithS s (".mp4") = false :=
    endsWith_false_small s (".mp4") ("_progress_target.txt") hm (by decide) (by decide)
      (by decide)
  have h5 : endsWithS s (".mkv") = false :=
    endsWith_false_small s (".mkv") ("_progress_target.txt") hm (by decide) (by decide)
      (by decide)
  have h6 : endsWithS s (".avi") = false :=
    endsWith_false_small s (".avi") ("_progress_target.txt") hm (by decide) (by decide)
      (by decide)
  unfold getBaseFileName
  rw [chopEnd_not hp, chopEnd_not h1]
  simp [chopMediaExt, h4, h5, h6]

theorem getBase_self_of_media (s : String) (hm : isMediaLow s = true)
    (h4 : endsWithS s (".mp4") = false) (h5 : endsWithS s (".mkv") = false)
    (h6 : endsWithS s (".avi") = false) : getBaseFileName s = s := by
  have hlowext : ∃ b : String, lowStr b = b ∧ endsWithS (lowStr s) b = true ∧
      endsWithS ("_progress.txt") b = false ∧
      endsWithS ("_progress_target.txt") b = false ∧
      b.data.length ≤ ("_progress.txt" : String).data.length ∧
      b.data.length ≤ ("_progress_target.txt" : String).data.length := by
    unfold isMediaLow at hm
    rcases Bool.or_eq_true_iff.mp hm with hmm | hav
    · rcases Bool.or_eq_true_iff.mp hmm with hm4 | hmk
      · exact ⟨".mp4", by decide, hm4, by decide, by decide, by decide, by decide⟩
      · exact ⟨".mkv", by decide, hmk, by decide, by decide, by decide, by decide⟩
    · exact ⟨".avi", by decide, hav, by decide, by decide, by decide, by decide⟩
  obtain ⟨b, hblow, hbend, hbp, hbpt, hbl1, hbl2⟩ := hlowext
  have hp : endsWithS s ("_progress.txt") = false := by
    cases hc : endsWithS s ("_progress.txt") with
    | false => rfl
    | true =>
      have h1 := endsWithS_low hc
      rw [show lowStr ("_progress.txt") = "_progress.txt" by decide] at h1
      have h2 := endsWithS_of_both hbend h1 hbl1
      rw [hbp] at h2
      exact (Bool.false_ne_true h2).elim
  have hpt : endsWithS s ("_progress_target.txt") = false := by
    cases hc : endsWithS s ("_progress_target.txt") with
    | false => rfl
    | true =>
      have h1 := endsWithS_low hc
      rw [show lowStr ("_progress_target.txt") = "_progress_target.txt" by decide] at h1
      have h2 := endsWithS_of_both hbend h1 hbl2
      rw [hbpt] at h2
      exact (Bool.false_ne_true h2).elim
  unfold getBaseFileName
  rw [chopEnd_not hp, chopEnd_not hpt]
  simp [chopMediaExt, h4, h5, h6]

theorem getBase_chop_of_ext (s e : String) (he : endsWithS s e = true)
    (hlenp : e.data.length ≤ ("_progress.txt" : String).data.length)
    (hlent : e.data.length ≤ ("_progress_target.txt" : String).data.length)
    (hdp : endsWithS ("_progress.txt") e = false)
    (hdt : endsWithS ("_progress_target.txt") e = false) :
    getBaseFileName s = chopMediaExt s := by
  have hp : endsWithS s ("_progress.txt") = false := endsWith_false_pair s e _ he hlenp hdp
  have hpt : endsWithS s ("_progress_target.txt") = false :=
    endsWith_false_pair s e _ he hlent hdt
  unfold getBaseFileName
  rw [chopEnd_not hp, chopEnd_not hpt]

theorem eq_append_of_chop (s e w : String) (he : endsWithS s e = true)
    (hb : chopEnd s e = w) : s.data = w.data ++ e.data := by
  have hd := chopEnd_data he
  rw [hb] at hd
  exact hd.symm

theorem getBase_media_eq_song (s : String) (hm : isMediaLow s = true) :
    getBaseFileName s = "song" ↔ (s = "song.mp4" ∨ s = "song.mkv" ∨ s = "song.avi") := by
  constructor
  · intro hb
    by_cases e1 : endsWithS s (".mp4") = true
    · refine Or.inl (str_eq_of_data ?_)
      rw [getBase_chop_of_ext s (".mp4") e1 (by decide) (by decide) (by decide) (by decide)]
        at hb
      unfold chopMediaExt at hb
      rw [if_pos e1] at hb
      exact (eq_append_of_chop s (".mp4") "song" e1 hb).trans (by decide)
    · by_cases e2 : endsWithS s (".mkv") = true
      · refine Or.inr (Or.inl (str_eq_of_data ?_))
        rw [getBase_chop_of_ext s (".mkv") e2 (by decide) (by decide) (by decide) (by decide)]
          at hb
        unfold chopMediaExt at hb
        rw [if_neg (by simp [Bool.not_eq_true] at e1 ⊢; exact e1), if_pos e2] at hb
        exact (eq_append_of_chop s (".mkv") "song" e2 hb).trans (by decide)
      · by_cases e3 : endsWithS s (".avi") = true
        · refine Or.inr (Or.inr (str_eq_of_data ?_))
          rw [getBase_chop_of_ext s (".avi") e3 (by decide) (by decide) (by decide)
            (by decide)] at hb
          unfold chopMediaExt at hb
          rw [if_neg (by simp [Bool.not_eq_true] at e1 ⊢; exact e1),
            if_neg (by simp [Bool.not_eq_true] at e2 ⊢; exact e2), if_pos e3] at hb
          exact (eq_append_of_chop s (".avi") "song" e3 hb).trans (by decide)
        · have hself := getBase_self_of_media s hm (by simpa using e1) (by simpa using e2)
            (by simpa using e3)
          rw [hself] at hb
          rw [hb] at hm
          exact absurd hm (by decide)
  · rintro (rfl | rfl | rfl) <;> decide

/-! ## Claim C5 -/

/-- Claim C5: sidecar-to-media association is purely name-based on the
derived base name.  (1) Any progress or target data attached by a scan
comes from a sidecar entry of the scanned directory whose derived base
name equals the media file's derived base name; (2) among media-classified
names, base name `song` characterises exactly the literal names
`song.mp4` / `song.mkv` / `song.avi` — so `song_progress.txt` (base
`song`) can attach to those and never to `song2.mp4` (base `song2`);
(3) a media file with no base-matching sidecar still appears in the scan
result, carrying no progress and no target data — absence of a sidecar is
not an error. -/
theorem claimC5_assoc (entries : List DirEntry) :
    (∀ fi ∈ readDirectoryFiles entries,
      (fi.progressData.isSome = true →
        ∃ g : FileRec, DirEntry.file g ∈ entries ∧
          endsWithS (lowStr g.name) ("_progress.txt") = true ∧
          getBaseFileName g.name = getBaseFileName fi.name) ∧
      (fi.progressTarget.isSome = true →
        ∃ g : FileRec, DirEntry.file g ∈ entries ∧
          endsWithS (lowStr g.name) ("_progress_target.txt") = true ∧
          getBaseFileName g.name = getBaseFileName fi.name)) ∧
    (∀ s : String, isMediaLow s = true →
      (getBaseFileName s = "song" ↔ (s = "song.mp4" ∨ s = "song.mkv" ∨ s = "song.avi"))) ∧
    (∀ g : FileRec, DirEntry.file g ∈ entries → isMediaLow g.name = true →
      (∀ sc : FileRec, DirEntry.file sc ∈ entries →
        (endsWithS (lowStr sc.name) ("_progress.txt") = true ∨
          endsWithS (lowStr sc.name) ("_progress_target.txt") = true) →
        getBaseFileName sc.name ≠ getBaseFileName g.name) →
      ∃ fi ∈ readDirectoryFiles entries, fi.name = g.name ∧
        fi.progressData = none ∧ fi.progressTarget = none) := by
  refine ⟨?_, fun s hs => getBase_media_eq_song s hs, ?_⟩
  · intro fi hfi
    unfold readDirectoryFiles at hfi
    rw [mem_sortDescLM] at hfi
    obtain ⟨fi0, hfi0, hatt⟩ := List.mem_map.mp hfi
    rcases scan_fileList_sub entries _ fi0 hfi0 with habs | ⟨g, hg, hgm, hfi0g⟩
    · exact absurd habs (by simp)
    have hname : fi.name = fi0.name := by rw [← hatt]; exact attachData_name _ fi0
    constructor
    · intro hsome
      rcases hp : mapGet (entries.foldl scanStep
          { fileList := [], progressFiles := [], targetFiles := [] }).progressFiles
          (getBaseFileName fi0.name) with _ | pf
      · rw [← hatt, attachData_pd_none _ fi0 hp, hfi0g] at hsome
        exact absurd hsome (by simp [mkFileInfo])
      · rcases scan_progressFiles_inv entries _ _ pf hp with hemp | ⟨hin, hsc, hbase⟩
        · exact absurd hemp (by simp [mapGet])
        · exact ⟨pf, hin, hsc, by rw [hbase, hname]⟩
    · intro hsome
      rcases ht : mapGet (entries.foldl scanStep
          { fileList := [], progressFiles := [], targetFiles := [] }).targetFiles
          (getBaseFileName fi0.name) with _ | tf
      · rw [← hatt, attachData_pt_none _ fi0 ht, hfi0g] at hsome
        exact absurd hsome (by simp [mkFileInfo])
      · rcases scan_targetFiles_inv entries _ _ tf ht with hemp | ⟨hin, hsc, hbase⟩
        · exact absurd hemp (by simp [mapGet])
        · exact ⟨tf, hin, hsc, by rw [hbase, hname]⟩
  · intro g hg hgm hnosc
    refine ⟨attachData (entries.foldl scanStep
      { fileList := [], progressFiles := [], targetFiles := [] }) (mkFileInfo g), ?_, ?_, ?_, ?_⟩
    · unfold readDirectoryFiles
      rw [mem_sortDescLM]
      exact List.mem_map.mpr ⟨mkFileInfo g, scan_fileList_mem entries _ g hg hgm, rfl⟩
    · exact attachData_name _ (mkFileInfo g)
    · rcases hp : mapGet (entries.foldl scanStep
          { fileList := [], progressFiles := [], targetFiles := [] }).progressFiles
          (getBaseFileName (mkFileInfo g).name) with _ | pf
      · rw [attachData_pd_none _ (mkFileInfo g) hp]
        rfl
      · rcases scan_progressFiles_inv entries _ _ pf hp with hemp | ⟨hin, hsc, hbase⟩
        · exact absurd hemp (by simp [mapGet])
        · exact absurd hbase (hnosc pf hin (Or.inl hsc))
    · rcases ht : mapGet (entries.foldl scanStep
          { fileList := [], progressFiles := [], targetFiles := [] }).targetFiles
          (getBaseFileName (mkFileInfo g).name) with _ | tf
      · rw [attachData_pt_none _ (mkFileInfo g) ht]
        rfl
      · rcases scan_targetFiles_inv entries _ _ tf ht with hemp | ⟨hin, hsc, hbase⟩
        · exact absurd hemp (by simp [mapGet])
        · exact absurd hbase (hnosc tf hin (Or.inr hsc))

/-- Witness for `claimC5_assoc`: by its base-name characterisation,
`song.avi` does carry the base name `song` while `song2.mp4` does not, so
`song_progress.txt` (base `song`) can never look up `song2.mp4`. -/
theorem claimC5_witness :
    getBaseFileName "song.avi" = "song" ∧ ¬ getBaseFileName "song2.mp4" = "song" :=
  ⟨((claimC5_assoc []).2.1 "song.avi" (by decide)).mpr (by decide),
    fun hc => absurd (((claimC5_assoc []).2.1 "song2.mp4" (by decide)).mp hc) (by decide)⟩

/-! ## Claim C10 -/

/-- Claim C10, counterexample: association can succeed for a media file
whose suffix is not exactly lowercase.  `Movie.MP4` is classified as media
by the case-insensitive check while its exact suffix `.MP4` is not
lowercase, yet the sidecar `Movie.MP4_progress.txt` (base name
`Movie.MP4`, the unstripped media name) is associated with it — refuting
the claim that such a file participates in no association and that
association only ever succeeds when both files carry exact-lowercase
suffixes. -/
theorem claimC10_cex :
    endsWithS (lowStr "Movie.MP4") (".mp4") = true ∧
    endsWithS "Movie.MP4" (".mp4") = false ∧
    getBaseFileName "Movie.MP4_progress.txt" = "Movie.MP4" ∧
    (readDirectoryFiles
      [DirEntry.file
        { name := "Movie.MP4", size := 9, lastModified := 3, type := "video/mp4",
          content := "" },
       DirEntry.file
        { name := "Movie.MP4_progress.txt", size := 1, lastModified := 4,
          type := "text/plain", content := "frame=3\nprogress=end" }]).map
      (fun fi => (fi.name, fi.progressData.isSome)) = [("Movie.MP4", true)] := by
  refine ⟨by decide, by decide, by decide, by decide⟩

/-- Claim C10, amended: classification is case-insensitive while base-name
stripping is case-sensitive, so a sidecar or media file whose
distinguishing suffix is not exactly lowercase keeps the suffix in its
derived base name (the base name is the whole file name).  Hence
`SONG_PROGRESS.TXT` has base name `SONG_PROGRESS.TXT` and a scan of
`song.mp4` together with `SONG_PROGRESS.TXT` attaches nothing — but such
files can still associate when the unstripped names line up, so
association is not restricted to exact-lowercase suffixes (see the
counterexample). -/
theorem claimC10_amended :
    (∀ s : String, endsWithS (lowStr s) ("_progress.txt") = true →
      endsWithS s ("_progress.txt") = false → getBaseFileName s = s) ∧
    (∀ s : String, endsWithS (lowStr s) ("_progress_target.txt") = true →
      endsWithS s ("_progress_target.txt") = false → getBaseFileName s = s) ∧
    (∀ s : String, isMediaLow s = true → endsWithS s (".mp4") = false →
      endsWithS s (".mkv") = false → endsWithS s (".avi") = false →
      getBaseFileName s = s) ∧
    (readDirectoryFiles
      [DirEntry.file
        { name := "song.mp4", size := 9, lastModified := 3, type := "video/mp4",
          content := "" },
       DirEntry.file
        { name := "SONG_PROGRESS.TXT", size := 1, lastModified := 4,
          type := "text/plain", content := "frame=3\nprogress=end" }]).map
      (fun fi => (fi.name, fi.progressData.isSome, fi.progressTarget.isSome)) =
      [("song.mp4", false, false)] :=
  ⟨getBase_self_of_plog, getBase_self_of_ptarget, getBase_self_of_media, by decide⟩

/-- Witness for `claimC10_amended` at the concrete sidecar name
`SONG_PROGRESS.TXT`: its non-lowercase suffix is not stripped. -/
theorem claimC10_witness :
    getBaseFileName "SONG_PROGRESS.TXT" = "SONG_PROGRESS.TXT" :=
  claimC10_amended.1 "SONG_PROGRESS.TXT" (by decide) (by decide)

/-! ## Claim C2 -/

/-- Claim C2, code behaviour at the failing input: when the IndexedDB put
(or open) of `saveDirectoryHandle` fails, the rejected promise escapes the
function's own `try/catch` (which guards only the synchronous part), so
`await saveDirectoryHandle(handle)` throws inside `openDirectoryPicker`:
the error is surfaced to the user and the post-grant `readDirectoryFiles`
scan never runs — contradicting the claim that persistence failures are
swallowed and the scan still runs.  With a succeeding save the scan does
run. -/
theorem claimC2_codeBug (st : TrackerState) (handleName : String) :
    (openDirectoryPicker
      { supported := true, userAborted := false, save := .putFailed, scanOk := true }
      st handleName).scanRan = false ∧
    (openDirectoryPicker
      { supported := true, userAborted := false, save := .putFailed, scanOk := true }
      st handleName).errorMsg = "Failed to save handle" ∧
    (openDirectoryPicker
      { supported := true, userAborted := false, save := .openFailed, scanOk := true }
      st handleName).scanRan = false ∧
    (openDirectoryPicker
      { supported := true, userAborted := false, save := .ok, scanOk := true }
      st handleName).scanRan = true := by
  refine ⟨rfl, rfl, rfl, rfl⟩

/-! ## Claim C6 -/

/-- Claim C6: on a cold start where a persisted capability is restored but
fails verification, the restore flow clears the stored record (when the
store's delete succeeds), sets no directory handle, runs no scan, ends the
restoring phase (no retry — the effect runs once on mount), and leaves the
path empty (Idle). -/
theorem claimC6_restore (env : RestoreEnv) (h : String)
    (hsup : env.supported = true) (hst : env.stored = some h)
    (hv : env.validHandle h = false) :
    (restoreDirectory env).directoryHandle = none ∧
    (restoreDirectory env).directoryPath = "" ∧
    (restoreDirectory env).scanRan = false ∧
    (restoreDirectory env).isRestoring = false ∧
    (env.deleteOk = true → (restoreDirectory env).storeAfter = none) := by
  refine ⟨?_, ?_, ?_, ?_, ?_⟩ <;> simp [restoreDirectory, hsup, hst, hv]

/-- Witness for `claimC6_restore` at a concrete environment whose stored
handle always fails verification. -/
theorem claimC6_witness :
    (restoreDirectory
      { supported := true, stored := some "vmx_file", validHandle := fun _ => false,
        deleteOk := true, savedDirName := some "vmx_file" }).directoryHandle = none ∧
    (restoreDirectory
      { supported := true, stored := some "vmx_file", validHandle := fun _ => false,
        deleteOk := true, savedDirName := some "vmx_file" }).storeAfter = none := by
  have T := claimC6_restore
    { supported := true, stored := some "vmx_file", validHandle := fun _ => false,
      deleteOk := true, savedDirName := some "vmx_file" } "vmx_file" rfl rfl rfl
  exact ⟨T.1, T.2.2.2.2 rfl⟩

/-! ## Claim C7 -/

/-- Claim C7: after a confirmed cancel that succeeds, a fresh fetch is
issued immediately and the displayed job list is exactly what that fetch
returned (or the previous list, untouched, if the fetch failed) — never a
locally mutated copy; after a failed cancel no fetch is issued, the job
list is untouched, the error is surfaced and an auto-clear timeout is
scheduled whose callback empties the error. -/
theorem claimC7_cancelFetch (env : CancelEnv) (st : QueueState) (queueId : String)
    (hc : env.confirmed = true) :
    (env.cancelResult = .ok () →
      (cancelQueueItem env st queueId).fetchedFresh = true ∧
      (∀ data, env.fetchResult = .ok data →
        (cancelQueueItem env st queueId).finalState.queueItems = data) ∧
      (∀ e, env.fetchResult = .error e →
        (cancelQueueItem env st queueId).finalState.queueItems = st.queueItems ∧
        (cancelQueueItem env st queueId).finalState.errorMsg = e)) ∧
    (∀ msg, env.cancelResult = .error msg →
      (cancelQueueItem env st queueId).fetchedFresh = false ∧
      (cancelQueueItem env st queueId).finalState.queueItems = st.queueItems ∧
      (cancelQueueItem env st queueId).finalState.errorMsg = msg ∧
      (cancelQueueItem env st queueId).errorAutoClear = true ∧
      (clearErrorLater (cancelQueueItem env st queueId).finalState).errorMsg = "") := by
  constructor
  · intro hok
    refine ⟨?_, ?_, ?_⟩
    · simp [cancelQueueItem, hc, hok]
    · intro data hf
      simp [cancelQueueItem, hc, hok, hf, applyFetch]
    · intro e hf
      constructor <;> simp [cancelQueueItem, hc, hok, hf, applyFetch]
  · intro msg herr
    refine ⟨?_, ?_, ?_, ?_, ?_⟩ <;> simp [cancelQueueItem, clearErrorLater, hc, herr]

/-- Witness for `claimC7_cancelFetch`: a confirmed, successful cancel with
a successful follow-up fetch replaces the displayed list with the fetched
one. -/
theorem claimC7_witness :
    (cancelQueueItem
      { confirmed := true, cancelResult := .ok (), fetchResult := .ok [] }
      { queueItems := [], errorMsg := "", cancellingIds := [], loading := false }
      "job1").fetchedFresh = true ∧
    (cancelQueueItem
      { confirmed := true, cancelResult := .ok (), fetchResult := .ok [] }
      { queueItems := [], errorMsg := "", cancellingIds := [], loading := false }
      "job1").finalState.queueItems = [] := by
  have T := claimC7_cancelFetch
    { confirmed := true, cancelResult := .ok (), fetchResult := .ok [] }
    { queueItems := [], errorMsg := "", cancellingIds := [], loading := false }
    "job1" rfl
  exact ⟨(T.1 rfl).1, (T.1 rfl).2.1 [] rfl⟩

/-! ## Claim C9 -/

theorem contains_setAdd (l : List String) (x : String) : (setAdd l x).contains x = true := by
  unfold setAdd
  by_cases h : l.contains x = true
  · rw [if_pos h]
    exact h
  · rw [if_neg h]
    induction l with
    | nil => simp
    | cons y ys ih =>
      simp_all [List.contains_cons]

theorem contains_setDelete (l : List String) (x : String) :
    (setDelete l x).contains x = false := by
  unfold setDelete
  rw [Bool.eq_false_iff]
  intro hc
  simp at hc

/-- Claim C9: a confirmed cancel first adds the job id to the in-flight
set (so the cancel button for that id renders disabled while the request
is pending), and the `finally` removes it again whatever the outcome of
the request and of the follow-up fetch — the final in-flight set is the
original one with the id deleted from the added set, and the button is
re-enabled. -/
theorem claimC9_flag (env : CancelEnv) (st : QueueState) (queueId : String)
    (hc : env.confirmed = true) :
    (cancelQueueItem env st queueId).midState.cancellingIds =
      setAdd st.cancellingIds queueId ∧
    cancelDisabled (cancelQueueItem env st queueId).midState queueId = true ∧
    (cancelQueueItem env st queueId).finalState.cancellingIds =
      setDelete (setAdd st.cancellingIds queueId) queueId ∧
    cancelDisabled (cancelQueueItem env st queueId).finalState queueId = false := by
  have hmid : (cancelQueueItem env st queueId).midState.cancellingIds =
      setAdd st.cancellingIds queueId := by
    rcases hres : env.cancelResult with _ | msg <;> simp [cancelQueueItem, hc, hres]
  have hfin : (cancelQueueItem env st queueId).finalState.cancellingIds =
      setDelete (setAdd st.cancellingIds queueId) queueId := by
    rcases hres : env.cancelResult with _ | msg <;>
      rcases hfr : env.fetchResult with _ | e <;>
        simp [cancelQueueItem, hc, hres, hfr, applyFetch]
  refine ⟨hmid, ?_, hfin, ?_⟩
  · unfold cancelDisabled
    rw [hmid]
    exact contains_setAdd st.cancellingIds queueId
  · unfold cancelDisabled
    rw [hfin]
    exact contains_setDelete (setAdd st.cancellingIds queueId) queueId

/-- Witness for `claimC9_flag`: a confirmed cancel that fails still ends
with the id removed from the in-flight set and the button re-enabled. -/
theorem claimC9_witness :
    cancelDisabled
      (cancelQueueItem
        { confirmed := true, cancelResult := .error "boom", fetchResult := .ok [] }
        { queueItems := [], errorMsg := "", cancellingIds := [], loading := false }
        "job1").midState "job1" = true ∧
    cancelDisabled
      (cancelQueueItem
        { confirmed := true, cancelResult := .error "boom", fetchResult := .ok [] }
        { queueItems := [], errorMsg := "", cancellingIds := [], loading := false }
        "job1").finalState "job1" = false := by
  have T := claimC9_flag
    { confirmed := true, cancelResult := .error "boom", fetchResult := .ok [] }
    { queueItems := [], errorMsg := "", cancellingIds := [], loading := false }
    "job1" rfl
  exact ⟨T.2.1, T.2.2.2⟩

end VMX
